import Mathlib

/-!
Shallow embedding of the rustygraphs graph store (src/src/graphs/graph.rs).

The Rust code stores nodes in a `Vec<Node>`, per-node attributes in a
`HashMap<uint, HashMap<String, String>>` and the adjacency relation in a
`HashMap<uint, Vec<uint>>`.  Hash maps are modelled as association lists
(`List (Nat x v)`) with first-match lookup, in-place replacement on insert and
first-match deletion; this is observationally equivalent to `HashMap` for the
operations the code uses (indexing a missing key panics).  A Rust panic is
modelled as `none`; the `Result<Node, GraphError>` of `remove_node` is modelled
as `Except GraphError Node`.  `Vec::swap_remove` of that era returned an
`Option`, not panicking on an out-of-range index; this is modelled exactly.
-/

/-- Mirrors `enum Node { Str(String), Int(int) }` (graph.rs lines 14-18). -/
inductive Node where
  | Str (s : String)
  | Int (v : Int)
deriving DecidableEq

/-- Modelled from the spec: the error enum lives in `src/errors.rs`, which is
not part of the provided sources.  Section 7 of the spec names a single
recoverable error, NodeNotFound, "returned (not a crash) when an operation that
requires an existing node (remove, set-attributes) is given a node value absent
from the store". -/
inductive GraphError where
  | NodeNotFound
deriving DecidableEq

/-- `HashMap` lookup: first entry with the given key (`map[k]` panics when this
is `none`). -/
def hmFind {α : Type} (m : List (Nat × α)) (k : Nat) : Option α :=
  match m with
  | [] => none
  | kv :: rest => if kv.fst = k then some kv.snd else hmFind rest k

/-- `HashMap::insert`: replace the value of an existing key in place, otherwise
append a new entry. -/
def hmInsert {α : Type} (m : List (Nat × α)) (k : Nat) (v : α) : List (Nat × α) :=
  match m with
  | [] => [(k, v)]
  | kv :: rest => if kv.fst = k then (k, v) :: rest else kv :: hmInsert rest k v

/-- `HashMap::remove`: drop the first entry with the given key. -/
def hmRemove {α : Type} (m : List (Nat × α)) (k : Nat) : List (Nat × α) :=
  match m with
  | [] => []
  | kv :: rest => if kv.fst = k then rest else kv :: hmRemove rest k

/-- The linear scan of `Graph::has_node` (graph.rs lines 215-222). -/
def listContains (l : List Node) (node : Node) : Bool :=
  match l with
  | [] => false
  | m :: rest => if m = node then true else listContains rest node

/-- The counting scan of `Graph::get_index` (graph.rs lines 198-212): the index
of the first equal element; `none` models the `panic!("Node does not exist.")`
fall-through. -/
def listIndexOf (l : List Node) (node : Node) : Option Nat :=
  match l with
  | [] => none
  | m :: rest => if m = node then some 0 else Option.map (fun i => i + 1) (listIndexOf rest node)

/-- 2014-era `Vec::swap_remove(i)`: `none` when `i` is out of range, otherwise
the removed element together with the vector in which the last element has
been moved into slot `i`. -/
def swapRemove {α : Type} (l : List α) (i : Nat) : Option (α × List α) :=
  match l.get? i, l.get? (l.length - 1) with
  | some x, some last => some (x, (l.set i last).dropLast)
  | _, _ => none

/-- The manual search loops of `Graph::remove_node` (graph.rs lines 102-108 and
131-137): index of the first occurrence, or the length when absent (the loop
counter runs off the end). -/
def vecFindIdx (l : List Nat) (x : Nat) : Nat :=
  match l with
  | [] => 0
  | y :: rest => if y = x then 0 else vecFindIdx rest x + 1

/-- Lines 101-109 of graph.rs: locate `rm` in a neighbour vector and
`swap_remove` it; the `Option` result of `swap_remove` is discarded, so an
out-of-range index leaves the vector unchanged. -/
def fixupVec (vec : List Nat) (rm : Nat) : List Nat :=
  match swapRemove vec (vecFindIdx vec rm) with
  | none => vec
  | some pr => pr.snd

/-- Mirrors `struct Graph` (graph.rs lines 7-12). -/
structure Graph where
  nodes : List Node
  attr_list : List (Nat × List (String × String))
  adj_list : List (Nat × List Nat)
  name : String
deriving DecidableEq

/-- `Graph::new` (graph.rs lines 26-34). -/
def Graph.new : Graph := ⟨[], [], [], ""⟩

/-- `Graph::has_node` (graph.rs lines 215-222). -/
def Graph.has_node (g : Graph) (node : Node) : Bool :=
  listContains g.nodes node

/-- `Graph::get_index` (graph.rs lines 198-212); `none` models the panic. -/
def Graph.get_index (g : Graph) (node : Node) : Option Nat :=
  listIndexOf g.nodes node

/-- `Graph::last_node` (graph.rs line 251): `&self.nodes[self.nodes.len()]`,
an index one past the end; `none` models the out-of-bounds panic. -/
def Graph.last_node (g : Graph) : Option Node :=
  g.nodes.get? g.nodes.length

/-- `Graph::add_node` (graph.rs lines 41-54).  When the value is new the code
pushes it, takes `last_node` (which indexes `nodes[len]`, out of bounds), and
then keys the fresh adjacency and attribute entries at `self.nodes.len()`, the
length after the push. -/
def Graph.add_node (g : Graph) (node : Node) : Option Graph :=
  if g.has_node node then
    some g
  else
    match Graph.last_node { g with nodes := g.nodes ++ [node] } with
    | none => none
    | some _ =>
      some { g with
        nodes := g.nodes ++ [node],
        adj_list := hmInsert g.adj_list (g.nodes ++ [node]).length [],
        attr_list := hmInsert g.attr_list (g.nodes ++ [node]).length [] }

/-- `Graph::add_nodes_multiple` (graph.rs lines 56-63): `add_node` for each
element in order. -/
def Graph.add_nodes_multiple (g : Graph) (nodes : List Node) : Option Graph :=
  match nodes with
  | [] => some g
  | n :: rest =>
    match Graph.add_node g n with
    | none => none
    | some g2 => Graph.add_nodes_multiple g2 rest

/-- `Graph::set_node_attr` (graph.rs lines 65-72): `panic!` (modelled `none`)
when the node is absent, otherwise `attr_list.insert(get_index(node), attrs)`. -/
def Graph.set_node_attr (g : Graph) (node : Node) (node_attr : List (String × String)) :
    Option Graph :=
  if !g.has_node node then
    none
  else
    match g.get_index node with
    | none => none
    | some index => some { g with attr_list := hmInsert g.attr_list index node_attr }

/-- `Graph::has_edge` (graph.rs lines 224-231): `get_index` both endpoints
(panicking when either is absent), then index the adjacency map (panicking when
the key is absent) and test membership. -/
def Graph.has_edge (g : Graph) (node1 node2 : Node) : Option Bool :=
  match g.get_index node1, g.get_index node2 with
  | some i1, some i2 =>
    match hmFind g.adj_list i1 with
    | none => none
    | some l => some (l.contains i2)
  | _, _ => none

/-- `Graph::add_edge` (graph.rs lines 150-176): check `has_edge` first (which
panics when an endpoint is absent), insert missing endpoints, then push each
index onto the other's neighbour vector, sequentially. -/
def Graph.add_edge (g : Graph) (node1 node2 : Node) : Option Graph :=
  match g.has_edge node1 node2 with
  | none => none
  | some true => some g
  | some false =>
    match (if g.has_node node1 then some g else Graph.add_node g node1) with
    | none => none
    | some g1 =>
      match (if Graph.has_node g1 node2 then some g1 else Graph.add_node g1 node2) with
      | none => none
      | some g2 =>
        match Graph.get_index g2 node1, Graph.get_index g2 node2 with
        | some i1, some i2 =>
          match hmFind g2.adj_list i1 with
          | none => none
          | some l1 =>
            match hmFind (hmInsert g2.adj_list i1 (l1 ++ [i2])) i2 with
            | none => none
            | some l2 =>
              some { g2 with
                adj_list := hmInsert (hmInsert g2.adj_list i1 (l1 ++ [i2])) i2 (l2 ++ [i1]) }
        | _, _ => none

/-- First loop of `Graph::remove_node` (graph.rs lines 98-110): for each
neighbour of the removed node, `swap_remove` the removed index from that
neighbour's vector; indexing a missing adjacency key panics (`none`). -/
def phase1 (adj : List (Nat × List Nat)) (conns : List Nat) (rm : Nat) :
    Option (List (Nat × List Nat)) :=
  match conns with
  | [] => some adj
  | c :: rest =>
    match hmFind adj c with
    | none => none
    | some vec => phase1 (hmInsert adj c (fixupVec vec rm)) rest rm

/-- Second loop of `Graph::remove_node` (graph.rs lines 128-139): for each
neighbour of the (assumed) moved node, overwrite the first occurrence of the
old last index with the vacated index; `nodes_vec[index] = ...` panics when
the index is out of range (the search ran off the end). -/
def phase2 (adj : List (Nat × List Nat)) (conns : List Nat) (lastIdx rm : Nat) :
    Option (List (Nat × List Nat)) :=
  match conns with
  | [] => some adj
  | c :: rest =>
    match hmFind adj c with
    | none => none
    | some vec =>
      if vecFindIdx vec lastIdx < vec.length then
        phase2 (hmInsert adj c (vec.set (vecFindIdx vec lastIdx) rm)) rest lastIdx rm
      else none

/-- `Graph::remove_node` (graph.rs lines 74-148).  Absent node: early return of
`Err(NodeNotFound)` with the state untouched.  Otherwise: break incident edges
(`phase1`), drop the removed key, `swap_remove` the node, compute
`last_node_index = self.nodes.len() + 1` (line 123, the length after removal
plus one), index the adjacency map at that key, rewrite the moved node's old
index in its neighbours' vectors (`phase2`), re-key its (pre-`phase2`) cloned
neighbour vector under the vacated index, and drop the removed attribute
entry. -/
def Graph.remove_node (g : Graph) (node : Node) :
    Option (Except GraphError Node × Graph) :=
  if !g.has_node node then
    some (Except.error GraphError.NodeNotFound, g)
  else
    match g.get_index node with
    | none => none
    | some rm =>
      match hmFind g.adj_list rm with
      | none => none
      | some conn_nodes =>
        match phase1 g.adj_list conn_nodes rm with
        | none => none
        | some adj1 =>
          match swapRemove g.nodes rm with
          | none => none
          | some ret =>
            match hmFind (hmRemove adj1 rm) (ret.snd.length + 1) with
            | none => none
            | some conn2 =>
              match phase2 (hmRemove adj1 rm) conn2 (ret.snd.length + 1) rm with
              | none => none
              | some adj3 =>
                some (Except.ok ret.fst,
                  { g with
                    nodes := ret.snd,
                    adj_list := hmInsert (hmRemove adj3 (ret.snd.length + 1)) rm conn2,
                    attr_list := hmRemove g.attr_list rm })

/-- All keys of an adjacency table are below `n` (valid 0-based handles). -/
def keysLt (n : Nat) (m : List (Nat × List Nat)) : Bool :=
  match m with
  | [] => true
  | kv :: rest => decide (kv.fst < n) && keysLt n rest

/-- Spec invariant 1: every adjacency-table key is a live node-table handle and
every live handle has an adjacency entry. -/
def adjNodeConsistent (g : Graph) : Bool :=
  keysLt g.nodes.length g.adj_list &&
  (List.range g.nodes.length).all (fun i => (hmFind g.adj_list i).isSome)

/-- Spec invariant 2: handle `b` appears in `a`'s neighbour vector only if `a`
appears in `b`'s (checked over every stored occurrence, giving the iff). -/
def adjSymmetric (g : Graph) : Bool :=
  g.adj_list.all (fun kv => kv.snd.all (fun j =>
    match hmFind g.adj_list j with
    | none => false
    | some l => l.contains kv.fst))

/-- States reachable from `Graph::new` by completed (non-panicking) public
operations. -/
inductive Reachable : Graph → Prop where
  | base : Reachable Graph.new
  | step_add_node (g g' : Graph) (n : Node) :
      Reachable g → Graph.add_node g n = some g' → Reachable g'
  | step_add_nodes_multiple (g g' : Graph) (ns : List Node) :
      Reachable g → Graph.add_nodes_multiple g ns = some g' → Reachable g'
  | step_set_node_attr (g g' : Graph) (n : Node) (a : List (String × String)) :
      Reachable g → Graph.set_node_attr g n a = some g' → Reachable g'
  | step_add_edge (g g' : Graph) (n1 n2 : Node) :
      Reachable g → Graph.add_edge g n1 n2 = some g' → Reachable g'
  | step_remove_node (g g' : Graph) (n : Node) (e : Except GraphError Node) :
      Reachable g → Graph.remove_node g n = some (e, g') → Reachable g'

/-- The spec's concrete removal scenario, in the state the spec's invariants
prescribe: two nodes with handles 0 and 1 joined by one edge. -/
def gMaths : Graph :=
  ⟨[Node.Str "Maths", Node.Str "Physics"],
   [(0, []), (1, [])],
   [(0, [1]), (1, [0])],
   ""⟩

/-- A one-node graph with an empty neighbour set, for concrete witnesses. -/
def gOne : Graph :=
  ⟨[Node.Int 1], [(0, [("colour", "red")])], [(0, [])], ""⟩

/-- A concrete attribute map for witnesses. -/
def attrsEx : List (String × String) := [("k", "v")]

/-! ### Helper lemmas -/

theorem get?_length {α : Type} : ∀ (l : List α), l.get? l.length = none := by
  intro l
  induction l with
  | nil => rfl
  | cons a t ih => simp

theorem listIndexOf_lt_length : ∀ {l : List Node} {node : Node} {i : Nat},
    listIndexOf l node = some i → i < l.length := by
  intro l
  induction l with
  | nil => intro node i h; simp [listIndexOf] at h
  | cons m rest ih =>
    intro node i h
    by_cases hm : m = node
    · simp [listIndexOf, hm] at h
      simp [List.length_cons]
      omega
    · simp [listIndexOf, hm] at h
      obtain ⟨j, hj, hji⟩ := h
      have := ih hj
      simp [List.length_cons]
      omega

theorem listIndexOf_of_contains : ∀ {l : List Node} {node : Node},
    listContains l node = true → ∃ i, listIndexOf l node = some i := by
  intro l
  induction l with
  | nil => intro node h; simp [listContains] at h
  | cons m rest ih =>
    intro node h
    by_cases hm : m = node
    · exact ⟨0, by simp [listIndexOf, hm]⟩
    · simp [listContains, hm] at h
      obtain ⟨j, hj⟩ := ih h
      exact ⟨j + 1, by simp [listIndexOf, hm, hj]⟩

theorem contains_of_listIndexOf : ∀ {l : List Node} {node : Node} {i : Nat},
    listIndexOf l node = some i → listContains l node = true := by
  intro l
  induction l with
  | nil => intro node i h; simp [listIndexOf] at h
  | cons m rest ih =>
    intro node i h
    by_cases hm : m = node
    · simp [listContains, hm]
    · simp [listIndexOf, hm] at h
      obtain ⟨j, hj, hji⟩ := h
      simp [listContains, hm]
      exact ih hj

theorem listIndexOf_of_not_contains : ∀ {l : List Node} {node : Node},
    listContains l node = false → listIndexOf l node = none := by
  intro l
  induction l with
  | nil => intro node h; rfl
  | cons m rest ih =>
    intro node h
    by_cases hm : m = node
    · simp [listContains, hm] at h
    · simp [listContains, hm] at h
      simp [listIndexOf, hm, ih h]

theorem hmFind_hmInsert_self {α : Type} : ∀ (m : List (Nat × α)) (k : Nat) (v : α),
    hmFind (hmInsert m k v) k = some v := by
  intro m
  induction m with
  | nil => intro k v; simp [hmInsert, hmFind]
  | cons kv rest ih =>
    intro k v
    by_cases hk : kv.fst = k
    · simp [hmInsert, hk, hmFind]
    · simp [hmInsert, hk, hmFind, ih]

theorem hmInsert_hmInsert_self {α : Type} : ∀ (m : List (Nat × α)) (k : Nat) (v w : α),
    hmInsert (hmInsert m k v) k w = hmInsert m k w := by
  intro m
  induction m with
  | nil => intro k v w; simp [hmInsert]
  | cons kv rest ih =>
    intro k v w
    by_cases hk : kv.fst = k
    · simp [hmInsert, hk]
    · simp [hmInsert, hk, ih]

theorem hmFind_some_lt {n k : Nat} {v : List Nat} : ∀ {m : List (Nat × List Nat)},
    keysLt n m = true → hmFind m k = some v → k < n := by
  intro m
  induction m with
  | nil => intro _ hf; simp [hmFind] at hf
  | cons kv rest ih =>
    intro hk hf
    simp only [keysLt, Bool.and_eq_true, decide_eq_true_eq] at hk
    simp only [hmFind] at hf
    by_cases hkk : kv.fst = k
    · have := hk.1
      omega
    · rw [if_neg hkk] at hf
      exact ih hk.2 hf

theorem hmFind_none_of_keysLt {n k : Nat} : ∀ {m : List (Nat × List Nat)},
    keysLt n m = true → n ≤ k → hmFind m k = none := by
  intro m
  induction m with
  | nil => intro _ _; rfl
  | cons kv rest ih =>
    intro hk hnk
    simp only [keysLt, Bool.and_eq_true, decide_eq_true_eq] at hk
    have h1 := hk.1
    simp only [hmFind]
    rw [if_neg (by omega)]
    exact ih hk.2 hnk

theorem keysLt_hmInsert {n k : Nat} {v : List Nat} : ∀ {m : List (Nat × List Nat)},
    keysLt n m = true → k < n → keysLt n (hmInsert m k v) = true := by
  intro m
  induction m with
  | nil => intro _ hkn; simp [hmInsert, keysLt, hkn]
  | cons kv rest ih =>
    intro hk hkn
    simp only [keysLt, Bool.and_eq_true, decide_eq_true_eq] at hk
    by_cases hkk : kv.fst = k
    · simp only [hmInsert, if_pos hkk, keysLt, Bool.and_eq_true, decide_eq_true_eq]
      exact ⟨hkn, hk.2⟩
    · simp only [hmInsert, if_neg hkk, keysLt, Bool.and_eq_true, decide_eq_true_eq]
      exact ⟨hk.1, ih hk.2 hkn⟩

theorem keysLt_hmRemove {n k : Nat} : ∀ {m : List (Nat × List Nat)},
    keysLt n m = true → keysLt n (hmRemove m k) = true := by
  intro m
  induction m with
  | nil => intro _; rfl
  | cons kv rest ih =>
    intro hk
    simp only [keysLt, Bool.and_eq_true, decide_eq_true_eq] at hk
    by_cases hkk : kv.fst = k
    · simp only [hmRemove, if_pos hkk]
      exact hk.2
    · simp only [hmRemove, if_neg hkk, keysLt, Bool.and_eq_true, decide_eq_true_eq]
      exact ⟨hk.1, ih hk.2⟩

theorem phase1_keysLt {n rm : Nat} : ∀ (conns : List Nat) (adj adj' : List (Nat × List Nat)),
    keysLt n adj = true → phase1 adj conns rm = some adj' → keysLt n adj' = true := by
  intro conns
  induction conns with
  | nil =>
    intro adj adj' h hp
    simp only [phase1, Option.some.injEq] at hp
    exact hp ▸ h
  | cons c rest ih =>
    intro adj adj' h hp
    cases hf : hmFind adj c with
    | none =>
      simp only [phase1, hf] at hp
      exact Option.noConfusion hp
    | some vec =>
      simp only [phase1, hf] at hp
      exact ih _ _ (keysLt_hmInsert h (hmFind_some_lt h hf)) hp

theorem swapRemove_spec {α : Type} (l : List α) (i : Nat) (h : i < l.length) :
    ∃ x t, swapRemove l i = some (x, t) ∧ t.length = l.length - 1 := by
  have h0 : 0 < l.length := Nat.lt_of_le_of_lt (Nat.zero_le i) h
  have h1 : l.length - 1 < l.length := Nat.sub_lt h0 Nat.one_pos
  have hg1 : l.get? i = some (l.get ⟨i, h⟩) := List.get?_eq_get h
  have hg2 : l.get? (l.length - 1) = some (l.get ⟨l.length - 1, h1⟩) := List.get?_eq_get h1
  refine ⟨l.get ⟨i, h⟩, (l.set i (l.get ⟨l.length - 1, h1⟩)).dropLast, ?_, ?_⟩
  · unfold swapRemove
    rw [hg1, hg2]
  · simp [List.length_dropLast, List.length_set]

theorem add_node_of_fresh {g : Graph} {n : Node} (h : g.has_node n = false) :
    g.add_node n = none := by
  have hl : Graph.last_node { g with nodes := g.nodes ++ [n] } = none := get?_length _
  simp [Graph.add_node, h, hl]

theorem add_node_new (n : Node) : Graph.new.add_node n = none :=
  add_node_of_fresh rfl

theorem add_nodes_multiple_new : ∀ (ns : List Node) (g' : Graph),
    Graph.new.add_nodes_multiple ns = some g' → g' = Graph.new := by
  intro ns g' h
  cases ns with
  | nil =>
    simp only [Graph.add_nodes_multiple, Option.some.injEq] at h
    exact h.symm
  | cons n rest =>
    simp only [Graph.add_nodes_multiple, add_node_new] at h
    exact Option.noConfusion h

theorem set_node_attr_new (n : Node) (a : List (String × String)) :
    Graph.new.set_node_attr n a = none := rfl

theorem add_edge_new (n1 n2 : Node) : Graph.new.add_edge n1 n2 = none := rfl

theorem remove_node_new (n : Node) :
    Graph.new.remove_node n = some (Except.error GraphError.NodeNotFound, Graph.new) := rfl

theorem reachable_eq_new : ∀ (g : Graph), Reachable g → g = Graph.new := by
  intro g h
  induction h with
  | base => rfl
  | step_add_node g g' n hr heq ih =>
    rw [ih, add_node_new] at heq
    exact Option.noConfusion heq
  | step_add_nodes_multiple g g' ns hr heq ih =>
    rw [ih] at heq
    exact add_nodes_multiple_new ns g' heq
  | step_set_node_attr g g' n a hr heq ih =>
    rw [ih, set_node_attr_new] at heq
    exact Option.noConfusion heq
  | step_add_edge g g' n1 n2 hr heq ih =>
    rw [ih, add_edge_new] at heq
    exact Option.noConfusion heq
  | step_remove_node g g' n e hr heq ih =>
    rw [ih, remove_node_new] at heq
    injection heq with h1
    injection h1 with h2 h3
    exact h3.symm

theorem hasEdge_none_of_absent {g : Graph} {n1 : Node} (n2 : Node)
    (h : g.has_node n1 = false) : g.has_edge n1 n2 = none := by
  have h1 : g.get_index n1 = none := listIndexOf_of_not_contains h
  unfold Graph.has_edge
  rw [h1]

/-! ### Claims -/

/-- C1 (code_bug evidence): the claimed removal cascade can never be observed.
On every graph whose adjacency-table keys are all valid 0-based handles
(below the node count — half of spec invariant 1), `remove_node` of a present
node panics: line 123 of graph.rs computes `last_node_index` as the node count
*after* removal plus one, i.e. the old node count, and line 126 indexes the
adjacency map at that key, which a consistent table never contains.  So
`remove_node` never succeeds on such a graph, and the claimed post-state
(`has_node x = false`, x scrubbed from its neighbours) is unreachable. -/
theorem remove_node_panics_on_consistent_graph (g : Graph) (node : Node)
    (hn : g.has_node node = true) (hk : keysLt g.nodes.length g.adj_list = true) :
    g.remove_node node = none := by
  obtain ⟨rm, hrm⟩ := listIndexOf_of_contains hn
  have hge : g.get_index node = some rm := hrm
  have hlt : rm < g.nodes.length := listIndexOf_lt_length hrm
  cases hfind : hmFind g.adj_list rm with
  | none => simp [Graph.remove_node, hn, hge, hfind]
  | some conn =>
    cases hp1 : phase1 g.adj_list conn rm with
    | none => simp [Graph.remove_node, hn, hge, hfind, hp1]
    | some adj1 =>
      obtain ⟨x, t, hsw, hlen⟩ := swapRemove_spec g.nodes rm hlt
      have hkey : hmFind (hmRemove adj1 rm) (t.length + 1) = none := by
        have hk1 : keysLt g.nodes.length adj1 = true :=
          phase1_keysLt conn g.adj_list adj1 hk hp1
        have hk2 : keysLt g.nodes.length (hmRemove adj1 rm) = true := keysLt_hmRemove hk1
        have hle : g.nodes.length ≤ t.length + 1 := by omega
        exact hmFind_none_of_keysLt hk2 hle
      simp [Graph.remove_node, hn, hge, hfind, hp1, hsw, hkey]

/-- Witness for C1 at the spec's own concrete scenario state: nodes Maths and
Physics (handles 0 and 1) joined by one edge; removing Maths panics. -/
theorem remove_node_panics_on_consistent_graph_witness :
    gMaths.has_node (Node.Str "Maths") = true ∧
      keysLt gMaths.nodes.length gMaths.adj_list = true ∧
      gMaths.remove_node (Node.Str "Maths") = none :=
  ⟨by decide, by decide,
    remove_node_panics_on_consistent_graph gMaths (Node.Str "Maths") (by decide) (by decide)⟩

/-- C2: every reachable graph state satisfies spec invariant 1 (adjacency keys
are exactly backed by live node-table handles).  This holds, but degenerately:
the only reachable state is the empty graph, because `add_node` of a fresh
value always panics in `last_node` (see C3), and every other mutation either
panics or leaves the state unchanged. -/
theorem adj_node_tables_consistent_of_reachable (g : Graph) (h : Reachable g) :
    adjNodeConsistent g = true := by
  rw [reachable_eq_new g h]
  rfl

/-- Witness for C2: the empty graph is reachable and consistent. -/
theorem adj_node_tables_consistent_of_reachable_witness : adjNodeConsistent Graph.new = true :=
  adj_node_tables_consistent_of_reachable Graph.new Reachable.base

/-- C3 (code_bug evidence): node insertion is never total — it always panics on
a value not already present.  `add_node` pushes the value and then evaluates
`last_node`, which is `&self.nodes[self.nodes.len()]` (graph.rs line 251), an
out-of-bounds index; the adjacency/attribute inserts on lines 50-51 are never
reached.  `add_nodes_multiple` with a fresh head value panics likewise. -/
theorem add_node_panics_on_fresh_value (g : Graph) (n : Node) (ns : List Node)
    (h : g.has_node n = false) :
    g.add_node n = none ∧ g.add_nodes_multiple (n :: ns) = none := by
  refine ⟨add_node_of_fresh h, ?_⟩
  simp only [Graph.add_nodes_multiple, add_node_of_fresh h]

/-- Witness for C3: inserting Int 0 into the empty graph panics. -/
theorem add_node_panics_on_fresh_value_witness :
    Graph.new.has_node (Node.Int 0) = false ∧
      Graph.new.add_node (Node.Int 0) = none ∧
      Graph.new.add_nodes_multiple [Node.Int 0] = none :=
  ⟨by decide,
    (add_node_panics_on_fresh_value Graph.new (Node.Int 0) [] (by decide)).1,
    (add_node_panics_on_fresh_value Graph.new (Node.Int 0) [] (by decide)).2⟩

/-- C4 (code_bug evidence): `has_edge` is not total — when an endpoint is
absent it panics inside `get_index` (graph.rs line 211) instead of returning
false.  That this is a slip rather than intent is shown by `add_edge`
(lines 155-168), which calls `has_edge` *before* checking `has_node`,
expecting it to tolerate absent endpoints. -/
theorem has_edge_panics_on_absent_node (g : Graph) (n1 n2 : Node)
    (h : g.has_node n1 = false) : g.has_edge n1 n2 = none :=
  hasEdge_none_of_absent n2 h

/-- Witness for C4: `has_edge` on the empty graph panics rather than
returning false. -/
theorem has_edge_panics_on_absent_node_witness :
    Graph.new.has_node (Node.Int 0) = false ∧
      Graph.new.has_edge (Node.Int 0) (Node.Int 1) = none :=
  ⟨by decide, has_edge_panics_on_absent_node Graph.new (Node.Int 0) (Node.Int 1) (by decide)⟩

/-- C5 (code_bug evidence): `add_edge` never reaches its insert-missing-endpoint
branch — its first statement calls `has_edge`, which panics whenever an
endpoint is absent, so edge addition fails on exactly the inputs the claim
says it handles. -/
theorem add_edge_panics_on_absent_endpoint (g : Graph) (n1 n2 : Node)
    (h : g.has_node n1 = false) : g.add_edge n1 n2 = none := by
  simp only [Graph.add_edge, hasEdge_none_of_absent n2 h]

/-- Witness for C5: adding an edge between two absent values on the empty
graph panics. -/
theorem add_edge_panics_on_absent_endpoint_witness :
    Graph.new.has_node (Node.Int 0) = false ∧
      Graph.new.add_edge (Node.Int 0) (Node.Int 1) = none :=
  ⟨by decide, add_edge_panics_on_absent_endpoint Graph.new (Node.Int 0) (Node.Int 1) (by decide)⟩

/-- C6 counterexample: `set_node_attr` on a value absent from the store does
not return the recoverable NodeNotFound error — the Rust function's return
type has no error channel at all, and the absent case executes
`panic!("Node does not exist in graph.")` (graph.rs line 68), modelled as
`none` (a crash). -/
theorem set_node_attr_absent_crashes_counterexample :
    Graph.new.set_node_attr (Node.Int 0) [] = none := rfl

/-- C6 amended: on an absent node value `set_node_attr` panics (a crash, not a
returned error); on a present node it stores the supplied map wholesale
(replace, not merge) at the node's index in the attribute table. -/
theorem set_node_attr_panics_or_replaces (g : Graph) (n : Node) (a : List (String × String)) :
    (g.has_node n = false → g.set_node_attr n a = none) ∧
    (∀ i, g.get_index n = some i →
      g.set_node_attr n a = some { g with attr_list := hmInsert g.attr_list i a } ∧
      hmFind (hmInsert g.attr_list i a) i = some a) := by
  constructor
  · intro h
    simp [Graph.set_node_attr, h]
  · intro i hi
    have hn : g.has_node n = true := contains_of_listIndexOf hi
    refine ⟨?_, hmFind_hmInsert_self g.attr_list i a⟩
    simp [Graph.set_node_attr, hn, hi]

/-- Witness for C6: both branches at concrete inputs — absent value Int 2
panics; present value Int 1 gets its attribute entry replaced by the supplied
map. -/
theorem set_node_attr_panics_or_replaces_witness :
    Graph.set_node_attr gOne (Node.Int 2) attrsEx = none ∧
      Graph.set_node_attr gOne (Node.Int 1) attrsEx =
        some { gOne with attr_list := hmInsert gOne.attr_list 0 attrsEx } ∧
      hmFind (hmInsert gOne.attr_list 0 attrsEx) 0 = some attrsEx :=
  ⟨(set_node_attr_panics_or_replaces gOne (Node.Int 2) attrsEx).1 (by decide),
    ((set_node_attr_panics_or_replaces gOne (Node.Int 1) attrsEx).2 0 (by decide)).1,
    ((set_node_attr_panics_or_replaces gOne (Node.Int 1) attrsEx).2 0 (by decide)).2⟩

/-- C7: `remove_node` on a value that is not present returns the NodeNotFound
failure and leaves the whole state — node table, attribute table, adjacency
table and name — unchanged (the early return on graph.rs lines 88-90 precedes
every mutation). -/
theorem remove_node_absent_returns_error_unchanged (g : Graph) (n : Node)
    (h : g.has_node n = false) :
    g.remove_node n = some (Except.error GraphError.NodeNotFound, g) := by
  simp [Graph.remove_node, h]

/-- Witness for C7: removing the never-inserted Int 5 from a one-node graph
returns NodeNotFound with the state intact. -/
theorem remove_node_absent_returns_error_unchanged_witness :
    gOne.has_node (Node.Int 5) = false ∧
      gOne.remove_node (Node.Int 5) = some (Except.error GraphError.NodeNotFound, gOne) :=
  ⟨by decide, remove_node_absent_returns_error_unchanged gOne (Node.Int 5) (by decide)⟩

/-- C8 (code_bug evidence): inserting the same node value twice can never yield
a handle at all — the first insertion of a fresh value already panics in
`last_node` (graph.rs line 251), so the claimed idempotence (same handle, no
duplicate entry) is unobservable; shown on the double insertion itself. -/
theorem double_insert_panics :
    Graph.new.add_nodes_multiple [Node.Str "a", Node.Str "a"] = none := rfl

/-- C9: adjacency is symmetric, and `has_edge` agrees with its transpose, on
every reachable graph state.  As with C2 this holds degenerately: the only
reachable state is the empty graph, where both sides of every `has_edge`
comparison are the same panic. -/
theorem adjacency_symmetric_of_reachable (g : Graph) (h : Reachable g) :
    adjSymmetric g = true ∧ ∀ a b : Node, g.has_edge a b = g.has_edge b a := by
  rw [reachable_eq_new g h]
  exact ⟨rfl, fun a b => rfl⟩

/-- Witness for C9 at the empty reachable state and a concrete node pair. -/
theorem adjacency_symmetric_of_reachable_witness :
    adjSymmetric Graph.new = true ∧
      Graph.new.has_edge (Node.Int 0) (Node.Int 1) =
        Graph.new.has_edge (Node.Int 1) (Node.Int 0) :=
  ⟨(adjacency_symmetric_of_reachable Graph.new Reachable.base).1,
    (adjacency_symmetric_of_reachable Graph.new Reachable.base).2 (Node.Int 0) (Node.Int 1)⟩

/-- C10: when node value `a` is present with handle `i`, has an adjacency entry
`l`, and is not already self-adjacent, `add_edge(a, a)` pushes `i` onto `a`'s
own neighbour vector twice (lines 174-175 both execute on the same vector), so
the self-loop handle appears twice, not once. -/
theorem add_edge_self_loop_double_entry (g : Graph) (a : Node) (i : Nat) (l : List Nat)
    (hi : g.get_index a = some i)
    (hl : hmFind g.adj_list i = some l)
    (hni : l.contains i = false) :
    g.add_edge a a = some { g with adj_list := hmInsert g.adj_list i (l ++ [i, i]) } := by
  have hn : g.has_node a = true := contains_of_listIndexOf hi
  have hni2 : i ∉ l := by simpa using hni
  have he : g.has_edge a a = some false := by
    simp [Graph.has_edge, hi, hl, hni2]
  simp [Graph.add_edge, he, hn, hi, hl, hmFind_hmInsert_self, hmInsert_hmInsert_self,
    List.append_assoc]

/-- Witness for C10: a self-loop on the one-node graph puts handle 0 into its
own neighbour vector twice. -/
theorem add_edge_self_loop_double_entry_witness :
    Graph.add_edge gOne (Node.Int 1) (Node.Int 1) =
      some { gOne with adj_list := hmInsert gOne.adj_list 0 ([] ++ [0, 0]) } :=
  add_edge_self_loop_double_entry gOne (Node.Int 1) 0 [] (by decide) (by decide) (by decide)
